import Mathlib

/-!
Zeroskip benchmark runner and lookup tool

A shallow embedding of `benchmark/zsbench.c` and `tool/cmd-get.c`.

Conventions of the embedding:

* a C string is the `List Char` of its characters before the terminator, so
  `strlen` is `List.length`;
* a raw byte buffer is a `List (Option Char)`, `none` being a cell that was
  allocated and never written;
* the process state (the globals of `zsbench.c`, the trace of observable
  actions, the positions in the `rand()` and `gettimeofday()` streams) is
  passed explicitly;
* the collaborators reached through library calls (the key-value store, the
  file system, the C library) are the fields of a `World`;
* a computation ends by returning, by `exit(status)` or by an abort (a failed
  `assert`), see `Res`.
-/

namespace Zeroskip

/-! ## Constants -/

/-- Modelled from the spec: the success status `ZS_OK` of the store operations,
declared in `libzeroskip/zeroskip.h` (not among the sources at hand). It is
zero, as `cmd_get` itself takes it to be when it tests the result of
`zsdb_fetch` for a non-zero status. -/
def ZS_OK : Int := 0

/-- The `EXIT_SUCCESS` of `<stdlib.h>`. -/
def EXIT_SUCCESS : Int := 0

/-- The `EXIT_FAILURE` of `<stdlib.h>`. -/
def EXIT_FAILURE : Int := 1

/-- The `PATH_MAX` of `<limits.h>` (Linux value). -/
def PATH_MAX : Nat := 4096

/-- The `TMP_MAX` of `<stdio.h>` (glibc value). -/
def TMP_MAX : Nat := 238328

/-- The open modes handed to `zsdb_open`. -/
inductive Mode where
  | MODE_CREATE
  | MODE_RDWR
  deriving DecidableEq, Repr

/-- The result of `stat(path, &sb)`: success, failure with `errno == ENOENT`, or
failure with any other `errno`. -/
inductive StatResult where
  | found
  | enoent
  | error
  deriving DecidableEq, Repr

/-- The fields of `struct timeval` filled by `gettimeofday`. -/
structure Timeval where
  tv_sec : Nat
  tv_usec : Nat
  deriving DecidableEq, Repr

/-! ## Formatted output -/

/-- The character of a decimal digit. -/
def digit_char (d : Nat) : Char := Char.ofNat (48 + d)

/-- Decimal digits of `n`, least significant first (`fuel` bounds the number of
digits produced). -/
def dec_digits : Nat → Nat → List Char
  | 0, _ => []
  | fuel + 1, n =>
    if n < 10 then [digit_char n] else digit_char (n % 10) :: dec_digits fuel (n / 10)

/-- The conversions `%d`, `%zu` and `%PRIu64` of a non-negative number. -/
def decimal (n : Nat) : List Char := (dec_digits (n + 1) n).reverse

/-- The conversion `%016d` of a non-negative `int`: zero padding on the left up
to a minimum width of 16. -/
def fmt_016d (i : Nat) : List Char :=
  List.replicate (16 - (decimal i).length) '0' ++ decimal i

/-- What `snprintf(buf, size, ...)` leaves in `buf`: the formatted text cut to
`size - 1` characters. -/
def snprintf (size : Nat) (text : List Char) : List Char := text.take (size - 1)

/-! ## Payload generator -/

/-- The `charset` of `generate_random_string`. -/
def charset : List Char :=
  "abcdefghijklmnopqrstuvwxyzABCDEFGHIJKLMNOPQRSTUVWXYZ0123456789!@#$%^&*()-=_+|\x7b\x7d[];<>,./?:".toList

/-- The loop of `generate_random_string`: `m` iterations are left, `n` is the
loop index and `k` the number of `rand()` calls already made. -/
def fill_random (rand : Nat → Nat) : Nat → Nat → Nat → List (Option Char) → List (Option Char) × Nat
  | 0, _, k, str => (str, k)
  | m + 1, n, k, str =>
    let pos := rand k % charset.length
    fill_random rand m (n + 1) (k + 1) (str.set n (some (charset.getD pos '\x00')))

/-- The function `generate_random_string(str, length)`; returns the buffer and
the advanced position in the `rand()` stream. -/
def generate_random_string (rand : Nat → Nat) (k : Nat) (str : List (Option Char)) (length : Nat) :
    List (Option Char) × Nat :=
  if length ≠ 0 then
    let length1 := length - 1
    let r := fill_random rand length1 0 k str
    (r.1.set length1 (some '\x00'), r.2)
  else
    (str, k)

/-- The function `random_string(length)`: a fresh buffer of `length + 1` cells
(`xmalloc`, assumed to succeed) handed to `generate_random_string`. -/
def random_string (rand : Nat → Nat) (k : Nat) (length : Nat) : List (Option Char) × Nat :=
  generate_random_string rand k (List.replicate (length + 1) none) length

/-- Reading a buffer as a C string: the characters before the first terminator;
`none` when an unwritten cell or the end of the buffer comes first. -/
def c_string : List (Option Char) → Option (List Char)
  | [] => none
  | none :: _ => none
  | some c :: rest => if c = '\x00' then some [] else (c_string rest).map (c :: ·)

/-- The characters that `generate_random_string` draws in a call that makes
`m` draws from position `k` of the `rand()` stream on: draw `j` is the
alphabet entry at index `rand (k + j) % 89`. -/
def drawn (rand : Nat → Nat) (k : Nat) (m : Nat) : List Char :=
  (List.range m).map (fun j => charset.getD (rand (k + j) % 89) '\x00')

/-! ## Workspace provisioner -/

/-- The `charset` of `create_tmp_dir_name`. -/
def tmp_charset : List Char :=
  "abcdefghijklmnopqrstuvwxyzABCDEFGHIJKLMNOPQRSTUVWXYZ0123456789".toList

/-- The `num_chars` of `create_tmp_dir_name`. -/
def num_chars : Nat := 62

/-- The seed `((size_t)(tv.tv_usec << 16)) ^ tv.tv_sec ^ getpid()`, a `uint64_t`. -/
def tmp_seed (tv : Timeval) (pid : Nat) : Nat :=
  ((((tv.tv_usec <<< 16) % 2 ^ 64) ^^^ tv.tv_sec) ^^^ pid) % 2 ^ 64

/-- The inner loop of `create_tmp_dir_name` ("fill in the random bits"): `m`
iterations are left, `j` is the loop index, `off` the offset of
`dirname_template` in `path`. -/
def fill_random_bits (off : Nat) : Nat → Nat → Nat → List Char → List Char
  | 0, _, _, path => path
  | m + 1, j, v, path =>
    fill_random_bits off m (j + 1) (v / num_chars)
      (path.set (off + j) (tmp_charset.getD (v % num_chars) '\x00'))

/-- The outer loop of `create_tmp_dir_name`: `n` attempts are left; the result
is the path when the loop broke with `ret = 0`, and `none` (NULL) otherwise. -/
def tmp_loop (stat : List Char → StatResult) (off : Nat) : Nat → Nat → List Char → Option (List Char)
  | 0, _, _ => none
  | n + 1, value, path =>
    let path1 := fill_random_bits off 6 0 value path
    if stat path1 = StatResult.enoent then some path1
    else tmp_loop stat off n ((value + 9999) % 2 ^ 64) path1

/-- The path buffer after `snprintf(path, sizeof(path), "%s/zsbench-XXXXXX", tmpdir)`. -/
def tmp_template (tmpdir : Option (List Char)) : List Char :=
  snprintf PATH_MAX (tmpdir.getD "/tmp".toList ++ "/zsbench-XXXXXX".toList)

/-- The value of `value` and the content of `path` on which `stat` is called in
attempt `i`, when no earlier attempt has left the loop. -/
def tmp_attempt (off : Nat) : Nat → Nat → List Char → Nat × List Char
  | 0, value, path => (value, fill_random_bits off 6 0 value path)
  | i + 1, value, path =>
    tmp_attempt off i ((value + 9999) % 2 ^ 64) (fill_random_bits off 6 0 value path)

/-- The candidate path of attempt `i` of `create_tmp_dir_name`. -/
def tmp_candidate (tv : Timeval) (pid : Nat) (tmpdir : Option (List Char)) (i : Nat) : List Char :=
  (tmp_attempt ((tmp_template tmpdir).length - 6) i (tmp_seed tv pid) (tmp_template tmpdir)).2

/-- The function `create_tmp_dir_name`; its inputs are the results of
`gettimeofday`, `getpid`, `getenv("TMPDIR")` and the behaviour of `stat`. -/
def create_tmp_dir_name (tv : Timeval) (pid : Nat) (tmpdir : Option (List Char))
    (stat : List Char → StatResult) : Option (List Char) :=
  let value := tmp_seed tv pid
  let path := tmp_template tmpdir
  let off := path.length - 6
  tmp_loop stat off TMP_MAX value path

/-- The six characters that encode `v`: character `j` is the alphabet entry at
index `(v / 62 ^ j) % 62`. -/
def tmp_suffix (v : Nat) : List Char :=
  (List.range 6).map (fun j => tmp_charset.getD (v / 62 ^ j % 62) '\x00')

/-! ## Process state and trace -/

/-- The observable actions of the two programs. -/
inductive Event where
  | zsdb_init
  | zsdb_open (dbname : Option (List Char)) (mode : Mode)
  | zsdb_write_lock_acquire
  | zsdb_add (key : List Char) (keylen : Nat) (val : List (Option Char)) (vallen : Nat)
  | zsdb_write_lock_release
  | zsdb_commit
  | zsdb_fetch (key : List Char) (keylen : Nat)
  | zsdb_close
  | zsdb_final
  | cmd_parse_config (config_file : Option (List Char))
  | recursive_rm (path : Option (List Char))
  | stdout (text : List Char)
  | stderr (text : List Char)
  deriving DecidableEq, Repr

/-- The collaborators of `zsbench`: `store` gives the status returned by the
store call that ends the given trace, `rand` and `clock` are the streams of
`rand()` (as seeded by `srand`) and `gettimeofday()` results. -/
structure World where
  store : List Event → Int
  rand : Nat → Nat
  clock : Nat → Timeval
  pid : Nat
  tmpdir : Option (List Char)
  stat : List Char → StatResult
  atoi : List Char → Int
  basename : Option (List Char) → List Char
  strsplit : Option (List Char) → List (List Char)
  environment : List (List Char)

/-- The globals of `zsbench.c`, the trace, and the positions in the streams. -/
structure State where
  DBNAME : Option (List Char)
  BENCHMARKS : Option (List Char)
  NUMRECS : Int
  new_db : Int
  log : List Event
  nrand : Nat
  nclock : Nat

/-- The state at program start (static initialisers). -/
def State.start : State :=
  { DBNAME := none, BENCHMARKS := none, NUMRECS := 1000, new_db := 0,
    log := [], nrand := 0, nclock := 0 }

/-- How a computation ends. -/
inductive Res (α : Type) where
  | ret (a : α) (st : State)
  | exit (status : Int) (st : State)
  | abort (st : State)

/-- The state in which a computation ends. -/
def Res.state {α : Type} : Res α → State
  | Res.ret _ st => st
  | Res.exit _ st => st
  | Res.abort st => st

/-- Append an action to the trace. -/
def emit (e : Event) (st : State) : State := { st with log := st.log ++ [e] }

/-- Append several actions to the trace. -/
def emit_all (es : List Event) (st : State) : State := { st with log := st.log ++ es }

/-- A store call whose status is inspected. -/
def store_call (w : World) (e : Event) (st : State) : Int × State :=
  (w.store (st.log ++ [e]), emit e st)

/-- The function `get_time_now`. -/
def get_time_now (w : World) (st : State) : Nat × State :=
  let tv := w.clock st.nclock
  ((tv.tv_sec * 1000000 + tv.tv_usec) % 2 ^ 64, { st with nclock := st.nclock + 1 })

/-! ## The benchmark runner -/

/-- The text printed by `usage`. -/
def usage_text (progname : List Char) : List (List Char) :=
  [ "Usage: ".toList ++ progname ++ " [OPTION]... [DB]...\n".toList,
    "  -b, --benchmarks     comma separated list of benchmarks to run\n".toList,
    "                       Available benchmarks:\n".toList,
    "                       * writeseq    - write values in sequential key order\n".toList,
    "                       * writerandom - write values in random key order\n".toList,
    "\n".toList,
    "  -d, --db             the db to run the benchmarks on\n".toList,
    "  -n, --numrecs        number of records to write[default: 1000]\n".toList,
    "  -h, --help           display this help and exit\n".toList ]

/-- The function `usage`. -/
def usage (progname : List Char) (st : State) : State :=
  emit_all ((usage_text progname).map Event.stdout) st

/-- The function `cleanup_db_dir`. -/
def cleanup_db_dir (st : State) : State :=
  { emit (Event.recursive_rm st.DBNAME) st with DBNAME := none }

/-- The function `print_header`: the host description of `print_environment`
(the lines are the world's), nothing for `print_warnings`, then a rule. -/
def print_header (w : World) (st : State) : State :=
  emit (Event.stdout "------------------------------------------------\n".toList)
    (emit_all (w.environment.map Event.stderr) st)

/-- The loop of `do_write_seq`: `m` iterations are left, `i` is the loop index. -/
def write_loop (w : World) : Nat → Nat → Nat → State → Res Nat
  | 0, _, bytes, st => Res.ret bytes st
  | m + 1, i, bytes, st =>
    let key := snprintf 100 (fmt_016d i)
    let keylen := key.length
    let vallen := keylen * 2
    let val := random_string w.rand st.nrand vallen
    let r := store_call w (Event.zsdb_add key keylen (val.1.take vallen) vallen)
      { st with nrand := val.2 }
    if r.1 = ZS_OK then write_loop w m (i + 1) ((bytes + (keylen + vallen)) % 2 ^ 64) r.2
    else Res.abort r.2

/-- The function `do_write_seq`. -/
def do_write_seq (w : World) (st : State) : Res Nat :=
  let r1 := store_call w Event.zsdb_init st
  if r1.1 ≠ ZS_OK then Res.abort r1.2 else
  let r2 := store_call w
    (Event.zsdb_open r1.2.DBNAME (if r1.2.new_db ≠ 0 then Mode.MODE_CREATE else Mode.MODE_RDWR)) r1.2
  if r2.1 ≠ ZS_OK then Res.abort r2.2 else
  match write_loop w r2.2.NUMRECS.toNat 0 0 (emit Event.zsdb_write_lock_acquire r2.2) with
  | Res.ret bytes st4 =>
    let r3 := store_call w Event.zsdb_close
      (emit Event.zsdb_commit (emit Event.zsdb_write_lock_release st4))
    if r3.1 ≠ ZS_OK then Res.abort r3.2 else Res.ret bytes (emit Event.zsdb_final r3.2)
  | Res.exit status st4 => Res.exit status st4
  | Res.abort st4 => Res.abort st4

/-- The function `do_write_random`. -/
def do_write_random (st : State) : State :=
  emit (Event.stdout "do_write_random\n".toList) st

/-- The report line of `writeseq`. -/
def report_line (bytes micros : Nat) : List Char :=
  "writeseq: ".toList ++ decimal bytes ++ " bytes written in ".toList ++ decimal micros
    ++ " μs.\n".toList

/-- The diagnostic for a name that is no benchmark. -/
def unknown_line (name : List Char) : List Char :=
  "Unknown benchmark \x27".toList ++ name ++ "\x27\n".toList

/-- The loop of `run_benchmarks` over the entries of the split list. -/
def run_loop (w : World) : List (List Char) → State → Res Unit
  | [], st => Res.ret () st
  | name :: rest, st =>
    if name = "writeseq".toList then
      let t0 := get_time_now w st
      match do_write_seq w t0.2 with
      | Res.ret bytes st2 =>
        let t1 := get_time_now w st2
        run_loop w rest
          (emit (Event.stderr (report_line bytes ((t1.1 + 2 ^ 64 - t0.1) % 2 ^ 64))) t1.2)
      | Res.exit status st2 => Res.exit status st2
      | Res.abort st2 => Res.abort st2
    else if name = "writerandom".toList then
      run_loop w rest (do_write_random st)
    else
      run_loop w rest (emit (Event.stderr (unknown_line name)) st)

/-- The function `run_benchmarks`. -/
def run_benchmarks (w : World) (st : State) : Res Int :=
  let st1 := print_header w st
  match run_loop w (w.strsplit st1.BENCHMARKS) st1 with
  | Res.ret _ st2 => Res.ret 0 st2
  | Res.exit status st2 => Res.exit status st2
  | Res.abort st2 => Res.abort st2

/-- The function `parse_options`; `opts` lists the successive results of
`getopt_long` (the option character and `optarg`). An `atoi(NULL)` is a crash. -/
def parse_options (w : World) (argv0 : Option (List Char)) :
    List (Char × Option (List Char)) → State → Res Int
  | [], st => Res.ret 0 st
  | (option, optarg) :: rest, st =>
    if option = 'b' then parse_options w argv0 rest { st with BENCHMARKS := optarg }
    else if option = 'd' then parse_options w argv0 rest { st with DBNAME := optarg }
    else if option = 'n' then
      match optarg with
      | some text => parse_options w argv0 rest { st with NUMRECS := w.atoi text }
      | none => Res.abort st
    else if option = 'h' ∨ option = '?' then
      Res.exit (if option = 'h' then 1 else 0) (usage (w.basename argv0) st)
    else parse_options w argv0 rest st

/-- The part of `main` from the test of `DBNAME` on. -/
def main_run (w : World) (st : State) : Res Unit :=
  let prov : Res Unit :=
    match st.DBNAME with
    | none =>
      let st1 := { st with new_db := 1, nclock := st.nclock + 1,
                           DBNAME := create_tmp_dir_name (w.clock st.nclock) w.pid w.tmpdir w.stat }
      match st1.DBNAME with
      | none => Res.abort st1
      | some name => Res.ret () (emit (Event.stdout ("Creating a new DB: ".toList ++ name ++ "\n".toList)) st1)
    | some name => Res.ret () (emit (Event.stdout ("Using existing DB: ".toList ++ name ++ "\n".toList)) st)
  match prov with
  | Res.ret _ st2 =>
    match run_benchmarks w st2 with
    | Res.ret ret st3 => Res.exit ret (if st3.new_db ≠ 0 then cleanup_db_dir st3 else st3)
    | Res.exit status st3 => Res.exit status st3
    | Res.abort st3 => Res.abort st3
  | Res.exit status st2 => Res.exit status st2
  | Res.abort st2 => Res.abort st2

/-- The function `main` of `zsbench`. -/
def main (w : World) (argc : Int) (argv0 : Option (List Char))
    (opts : List (Char × Option (List Char))) : Res Unit :=
  if argc = 0 then Res.exit EXIT_FAILURE (usage (w.basename argv0) State.start) else
  match parse_options w argv0 opts State.start with
  | Res.ret _ st1 =>
    match st1.BENCHMARKS with
    | none =>
      Res.exit EXIT_FAILURE
        (usage (w.basename argv0) (emit (Event.stderr "No benchmarks specified.\n".toList) st1))
    | some _ => main_run w st1
  | Res.exit status st1 => Res.exit status st1
  | Res.abort st1 => Res.abort st1

/-! ## The lookup tool -/

/-- The outcomes of the store operations of one run of `cmd_get`: the statuses
of `zsdb_init`, `zsdb_open`, `zsdb_fetch` and `zsdb_close`, and the value that
a successful fetch hands back. -/
structure GetStore where
  init : Int
  opened : Int
  fetch : Int
  close : Int
  value : List Char

/-- The tail of `cmd_get` from the label `done` on. -/
def cmd_get_done (s : GetStore) (ret : Int) (log : List Event) : Int × List Event :=
  let log1 := log ++ [Event.zsdb_close]
  let r := if s.close ≠ ZS_OK then
      (EXIT_FAILURE, log1 ++ [Event.stderr "ERROR: Could not close DB.\n".toList])
    else (ret, log1)
  (r.1, r.2 ++ [Event.zsdb_final])

/-- The function `usage_and_die` of `cmd-get.c`. -/
def usage_and_die (progname usage_text : List Char) (log : List Event) : Int × List Event :=
  (EXIT_FAILURE,
    log ++ [Event.stderr ("Usage: ".toList ++ progname ++ " ".toList ++ usage_text ++ "\n".toList)])

/-- The option loop of `cmd_get`: the last `-c` argument, or `none` when an
option other than `-c` stops the program. -/
def get_options : List (Char × Option (List Char)) → Option (List Char) → Option (Option (List Char))
  | [], config_file => some config_file
  | (option, optarg) :: rest, _ =>
    if option = 'c' then get_options rest optarg else none

/-- The function `cmd_get`: the exit status and the trace. `opts` lists the
results of `getopt_long`, `args` the remaining (positional) arguments. -/
def cmd_get (s : GetStore) (progname cmd_get_usage : List Char)
    (opts : List (Char × Option (List Char))) (args : List (List Char)) : Int × List Event :=
  match get_options opts none with
  | none => usage_and_die progname cmd_get_usage []
  | some config_file =>
    match args with
    | [dbname, key] =>
      let log0 := [Event.cmd_parse_config config_file, Event.zsdb_init]
      if s.init ≠ ZS_OK then
        cmd_get_done s EXIT_FAILURE
          (log0 ++ [Event.stderr "ERROR: Failed initialising DB.\n".toList])
      else
      let log1 := log0 ++ [Event.zsdb_open (some dbname) Mode.MODE_RDWR]
      if s.opened ≠ ZS_OK then
        cmd_get_done s EXIT_FAILURE
          (log1 ++ [Event.stderr ("ERROR: Could not open DB ".toList ++ dbname ++ ".\n".toList)])
      else
      let log2 := log1 ++ [Event.zsdb_fetch key key.length]
      if s.fetch ≠ 0 then
        cmd_get_done s EXIT_FAILURE
          (log2 ++ [Event.stderr ("ERROR: Cannot find record with key ".toList ++ key
            ++ " in ".toList ++ dbname ++ "\n".toList)])
      else
        cmd_get_done s EXIT_SUCCESS
          (log2 ++ [Event.stderr ("Found record with key ".toList ++ key
              ++ ", has value of length ".toList ++ decimal s.value.length ++ ": ".toList)]
            ++ s.value.map (fun c => Event.stderr [c])
            ++ [Event.stderr "\n".toList])
    | _ => usage_and_die progname cmd_get_usage []

/-- The number of calls of `recursive_rm` in a trace. -/
def rm_count (log : List Event) : Nat :=
  (log.filter (fun e => match e with | Event.recursive_rm _ => true | _ => false)).length

/-- The number of occurrences of an action in a trace. -/
def calls (e : Event) (log : List Event) : Nat := log.count e

/-! ## Notions used to state the properties -/

/-- The number that a string of decimal digits denotes. -/
def dec_value (text : List Char) : Nat :=
  text.foldl (fun acc c => 10 * acc + (c.toNat - 48)) 0

/-- The keys of the `zsdb_add` calls of a trace, in order. -/
def insert_keys : List Event → List (List Char)
  | [] => []
  | Event.zsdb_add key _ _ _ :: rest => key :: insert_keys rest
  | _ :: rest => insert_keys rest

/-- The sum, over the `zsdb_add` calls of a trace, of the key length and the
value length handed to the store. -/
def insert_bytes : List Event → Nat
  | [] => 0
  | Event.zsdb_add _ keylen _ vallen :: rest => keylen + vallen + insert_bytes rest
  | _ :: rest => insert_bytes rest

/-- The `zsdb_add` call expected of iteration `i` of `writeseq` when the
`rand()` stream stood at `k` before the loop: the 16-character key, and a
32-byte value of 31 drawn characters and the terminator. -/
def expected_add (rand : Nat → Nat) (k i : Nat) : Event :=
  Event.zsdb_add (fmt_016d i) 16 ((drawn rand (k + 31 * i) 31).map some ++ [some '\x00']) 32

/-- The trace expected of one run of `writeseq` over `N` records: `k` is the
position of the `rand()` stream at entry. -/
def expected_session (rand : Nat → Nat) (k : Nat) (dbname : Option (List Char)) (new_db : Int)
    (N : Nat) : List Event :=
  [Event.zsdb_init,
   Event.zsdb_open dbname (if new_db ≠ 0 then Mode.MODE_CREATE else Mode.MODE_RDWR),
   Event.zsdb_write_lock_acquire]
  ++ (List.range N).map (fun i => expected_add rand k i)
  ++ [Event.zsdb_write_lock_release, Event.zsdb_commit, Event.zsdb_close, Event.zsdb_final]

/-- The `m` characters that the inner loop of `create_tmp_dir_name` writes for
the value `v`. -/
def encoded (m v : Nat) : List Char :=
  (List.range m).map (fun t => tmp_charset.getD (v / 62 ^ t % 62) '\x00')

/-- What `run_benchmarks` adds to the trace for one name of the list when the
store operations succeed: for `writeseq` the trace of one run of the workload
followed by one report line, for `writerandom` the line of `do_write_random`
on the standard output and no report line, for any other name the
diagnostic. -/
def dispatched (rand : Nat → Nat) (dbname : Option (List Char)) (new_db numrecs : Int)
    (name : List Char) (seg : List Event) : Prop :=
  (name = "writeseq".toList →
    ∃ k micros, seg = expected_session rand k dbname new_db numrecs.toNat
      ++ [Event.stderr (report_line (48 * numrecs.toNat) micros)])
  ∧ (name = "writerandom".toList → seg = [Event.stdout "do_write_random\n".toList])
  ∧ (name ≠ "writeseq".toList → name ≠ "writerandom".toList →
      seg = [Event.stderr (unknown_line name)])

/-- A field splitter, standing for `str_array_from_strsplit` in the sample worlds. -/
def split_on (sep : Char) : List Char → List (List Char)
  | [] => [[]]
  | c :: rest =>
    match split_on sep rest with
    | [] => if c = sep then [[]] else [[c]]
    | field :: fields => if c = sep then [] :: field :: fields else (c :: field) :: fields

/-- A sample world: every store operation returns `status`, `TMPDIR` is unset
and no path exists. -/
def sample_world (status : Int) : World :=
  { store := fun _ => status
    rand := fun k => 7 * k + 3
    clock := fun k => Timeval.mk (1700000000 + k) 250000
    pid := 4242
    tmpdir := none
    stat := fun _ => StatResult.enoent
    atoi := fun text => (dec_value text : Int)
    basename := fun arg => arg.getD []
    strsplit := fun list => split_on ',' (list.getD [])
    environment := ["Zeroskip:       version 0.1\n".toList] }

/-- Whether a computation ended by an abort. -/
def Res.aborted {α : Type} : Res α → Bool
  | Res.abort _ => true
  | _ => false

/-- The exit status of a computation that ended by `exit`. -/
def Res.status {α : Type} : Res α → Option Int
  | Res.exit status _ => some status
  | _ => none

/-- The state `st1` comes from `st` by actions that call no `recursive_rm` and
leave the globals `DBNAME` and `new_db` as they are. -/
def Extends (st st1 : State) : Prop :=
  st1.DBNAME = st.DBNAME ∧ st1.new_db = st.new_db
    ∧ ∃ actions, st1.log = st.log ++ actions ∧ rm_count actions = 0

/-! ## Lists -/

theorem set_length_append {α : Type} (pre : List α) (x c : α) (post : List α) :
    (pre ++ x :: post).set pre.length c = pre ++ c :: post := by
  induction pre with
  | nil => rfl
  | cons a pre ih => simp [ih]

/-! ## Payload generator: `generate_random_string`, `random_string` -/

theorem charset_length : charset.length = 89 := by decide

theorem charset_getD_mem (x : Nat) : charset.getD (x % 89) '\x00' ∈ charset := by
  have h : x % 89 < charset.length := by
    rw [charset_length]; exact Nat.mod_lt _ (by norm_num)
  rw [List.getD_eq_getElem _ _ h]
  exact List.getElem_mem h

theorem charset_ne_nul : ∀ c ∈ charset, c ≠ '\x00' := by decide

theorem drawn_succ (rand : Nat → Nat) (k m : Nat) :
    drawn rand k (m + 1) = charset.getD (rand k % 89) '\x00' :: drawn rand (k + 1) m := by
  simp [drawn, List.range_succ_eq_map, Function.comp_def, Nat.add_assoc, Nat.add_comm 1]

theorem drawn_length (rand : Nat → Nat) (k m : Nat) : (drawn rand k m).length = m := by
  simp [drawn]

theorem drawn_mem (rand : Nat → Nat) (k m : Nat) : ∀ c ∈ drawn rand k m, c ∈ charset := by
  intro c hc
  simp only [drawn, List.mem_map, List.mem_range] at hc
  obtain ⟨j, _, rfl⟩ := hc
  exact charset_getD_mem _

theorem drawn_getElem_opt (rand : Nat → Nat) (k m j : Nat) (hj : j < m) :
    (drawn rand k m)[j]? = charset[rand (k + j) % 89]? := by
  have h : rand (k + j) % 89 < charset.length := by
    rw [charset_length]; exact Nat.mod_lt _ (by norm_num)
  simp [drawn, hj, List.getD_eq_getElem _ _ h, List.getElem?_eq_getElem h]

theorem fill_random_append (rand : Nat → Nat) (m : Nat) :
    ∀ (k : Nat) (pre mid post : List (Option Char)), mid.length = m →
      fill_random rand m pre.length k (pre ++ mid ++ post)
        = (pre ++ (drawn rand k m).map some ++ post, k + m) := by
  induction m with
  | zero =>
    intro k pre mid post h
    have : mid = [] := List.length_eq_zero.mp h
    simp [fill_random, drawn, this]
  | succ m ih =>
    intro k pre mid post h
    obtain ⟨x, mid1, rfl⟩ : ∃ x mid1, mid = x :: mid1 := by
      cases mid with
      | nil => simp at h
      | cons x mid1 => exact ⟨x, mid1, rfl⟩
    have hlen : mid1.length = m := by simpa using h
    have hset : (pre ++ (x :: mid1) ++ post).set pre.length
          (some (charset.getD (rand k % 89) '\x00'))
        = (pre ++ [some (charset.getD (rand k % 89) '\x00')]) ++ mid1 ++ post := by
      have := set_length_append pre x (some (charset.getD (rand k % 89) '\x00')) (mid1 ++ post)
      simp at this
      simp [this]
    have hrec := ih (k + 1) (pre ++ [some (charset.getD (rand k % 89) '\x00')]) mid1 post hlen
    simp only [List.length_append, List.length_singleton] at hrec
    simp only [fill_random, charset_length, hset, hrec, drawn_succ]
    simp [Nat.add_assoc, Nat.add_comm 1]

theorem c_string_terminated (l : List Char) (rest : List (Option Char))
    (h : ∀ c ∈ l, c ≠ '\x00') :
    c_string (l.map some ++ some '\x00' :: rest) = some l := by
  induction l with
  | nil => simp [c_string]
  | cons a l ih =>
    have ha : a ≠ '\x00' := h a (List.mem_cons_self a l)
    have hl : ∀ c ∈ l, c ≠ '\x00' := fun c hc => h c (List.mem_cons_of_mem a hc)
    simp [c_string, ha, ih hl]

theorem generate_random_string_succ (rand : Nat → Nat) (k n : Nat) (str : List (Option Char))
    (h : n + 1 ≤ str.length) :
    generate_random_string rand k str (n + 1)
      = ((drawn rand k n).map some ++ some '\x00' :: str.drop (n + 1), k + n) := by
  have hsplit : str = [] ++ str.take n ++ str.drop n := by simp
  have htake : (str.take n).length = n := by
    rw [List.length_take]; omega
  have hfill := fill_random_append rand n k [] (str.take n) (str.drop n) htake
  rw [← hsplit] at hfill
  obtain ⟨x, hx⟩ : ∃ x, str.drop n = x :: str.drop (n + 1) := by
    have hn : n < str.length := by omega
    exact ⟨str[n], List.drop_eq_getElem_cons hn⟩
  have hlen : ((drawn rand k n).map some).length = n := by simp [drawn_length]
  have hset := set_length_append ((drawn rand k n).map some) x (some '\x00') (str.drop (n + 1))
  rw [hlen] at hset
  simp only [List.length_nil] at hfill
  simp [generate_random_string, hfill, hx, hset]

theorem random_string_succ (rand : Nat → Nat) (k n : Nat) :
    random_string rand k (n + 1)
      = ((drawn rand k n).map some ++ [some '\x00', none], k + n) := by
  have h := generate_random_string_succ rand k n (List.replicate (n + 1 + 1) none) (by simp)
  simpa [random_string] using h

/-- Claim C2. For every stream of `rand()` outputs and every position `k` in it:
`random_string(0)` returns its one-cell buffer untouched (nothing is written, no
`rand()` call is made) and `generate_random_string(str, 0)` returns `str` as it
was; `random_string(1)` returns the empty C string; and for a length `n + 1`
the buffer holds `n` characters followed by the terminator at index `n`, read
as a C string it is those `n` characters, each a member of the 89-symbol
alphabet, character `j` being `charset[rand (k + j) % 89]`, and `n` draws
were made. The same holds when `generate_random_string` is handed any buffer of
at least `n + 1` cells. -/
theorem random_string_spec (rand : Nat → Nat) (k n : Nat) :
    charset.length = 89
    ∧ random_string rand k 0 = ([none], k)
    ∧ (∀ str, generate_random_string rand k str 0 = (str, k))
    ∧ random_string rand k 1 = ([some '\x00', none], k)
    ∧ c_string (random_string rand k 1).1 = some []
    ∧ random_string rand k (n + 1) = ((drawn rand k n).map some ++ [some '\x00', none], k + n)
    ∧ c_string (random_string rand k (n + 1)).1 = some (drawn rand k n)
    ∧ (drawn rand k n).length = n
    ∧ (∀ j, j < n → (drawn rand k n)[j]? = charset[rand (k + j) % 89]?)
    ∧ (∀ c ∈ drawn rand k n, c ∈ charset)
    ∧ (∀ str : List (Option Char), n + 1 ≤ str.length →
        generate_random_string rand k str (n + 1)
          = ((drawn rand k n).map some ++ some '\x00' :: str.drop (n + 1), k + n)) := by
  have hnul : ∀ c ∈ drawn rand k n, c ≠ '\x00' :=
    fun c hc => charset_ne_nul c (drawn_mem rand k n c hc)
  refine ⟨charset_length, rfl, fun _ => rfl, rfl, rfl, random_string_succ rand k n, ?_,
    drawn_length rand k n, fun j hj => drawn_getElem_opt rand k n j hj, drawn_mem rand k n,
    fun str h => generate_random_string_succ rand k n str h⟩
  rw [random_string_succ]
  exact c_string_terminated _ _ hnul

/-! ## Formatted output: `%016d` -/

theorem digit_char_toNat (d : Nat) (h : d < 10) : (digit_char d).toNat - 48 = d := by
  interval_cases d <;> rfl

theorem dec_digits_length_le (fuel : Nat) :
    ∀ (n k : Nat), n < 10 ^ (k + 1) → (dec_digits fuel n).length ≤ k + 1 := by
  induction fuel with
  | zero => intro n k _; simp [dec_digits]
  | succ fuel ih =>
    intro n k h
    by_cases h10 : n < 10
    · simp [dec_digits, h10]
    · cases k with
      | zero => omega
      | succ k =>
        have hdiv : n / 10 < 10 ^ (k + 1) := by
          rw [Nat.div_lt_iff_lt_mul (by norm_num)]
          calc n < 10 ^ (k + 1 + 1) := h
            _ = 10 ^ (k + 1) * 10 := by ring
        have := ih (n / 10) k hdiv
        simp only [dec_digits, h10, if_false, List.length_cons]
        omega

theorem dec_digits_value (fuel : Nat) :
    ∀ n : Nat, n < fuel →
      (dec_digits fuel n).foldr (fun c acc => 10 * acc + (c.toNat - 48)) 0 = n := by
  induction fuel with
  | zero => intro n h; omega
  | succ fuel ih =>
    intro n h
    by_cases h10 : n < 10
    · simp [dec_digits, h10, digit_char_toNat n h10]
    · have hlt : n / 10 < fuel := by omega
      have hmod : n % 10 < 10 := Nat.mod_lt _ (by norm_num)
      simp only [dec_digits, h10, if_false, List.foldr_cons, ih (n / 10) hlt,
        digit_char_toNat (n % 10) hmod]
      omega

theorem dec_value_decimal (n : Nat) : dec_value (decimal n) = n := by
  unfold dec_value decimal
  rw [List.foldl_reverse]
  exact dec_digits_value (n + 1) n (Nat.lt_succ_self n)

theorem dec_value_zeros (k : Nat) (text : List Char) :
    dec_value (List.replicate k '0' ++ text) = dec_value text := by
  unfold dec_value
  rw [List.foldl_append]
  have hz : List.foldl (fun acc c => 10 * acc + (c.toNat - 48)) 0 (List.replicate k '0') = 0 := by
    induction k with
    | zero => rfl
    | succ k ih =>
      rw [List.replicate_succ, List.foldl_cons]
      exact ih
  rw [hz]

theorem dec_value_fmt_016d (i : Nat) : dec_value (fmt_016d i) = i := by
  unfold fmt_016d
  rw [dec_value_zeros, dec_value_decimal]

theorem fmt_016d_injective (i j : Nat) (h : fmt_016d i = fmt_016d j) : i = j := by
  have := congrArg dec_value h
  simpa [dec_value_fmt_016d] using this

theorem fmt_016d_length (i : Nat) (h : i < 10 ^ 16) : (fmt_016d i).length = 16 := by
  have hle : (decimal i).length ≤ 16 := by
    unfold decimal
    rw [List.length_reverse]
    exact dec_digits_length_le (i + 1) i 15 h
  simp only [fmt_016d, List.length_append, List.length_replicate]
  omega

theorem snprintf_key (i : Nat) (h : i < 10 ^ 16) : snprintf 100 (fmt_016d i) = fmt_016d i := by
  unfold snprintf
  apply List.take_of_length_le
  rw [fmt_016d_length i h]
  norm_num

/-! ## The workload `writeseq`: `do_write_seq` -/

theorem random_value_32 (rand : Nat → Nat) (k : Nat) :
    (random_string rand k 32).1.take 32 = (drawn rand k 31).map some ++ [some '\x00']
    ∧ (random_string rand k 32).2 = k + 31 := by
  rw [random_string_succ rand k 31]
  refine ⟨?_, rfl⟩
  have hlen : ((drawn rand k 31).map some ++ [some '\x00']).length = 32 := by
    simp [drawn_length]
  have h : (((drawn rand k 31).map some ++ [some '\x00']) ++ [none]).take 32
      = (drawn rand k 31).map some ++ [some '\x00'] := List.take_left' hlen
  simpa using h

theorem write_loop_ok (w : World) (hok : ∀ h, w.store h = ZS_OK) (k : Nat) (m : Nat) :
    ∀ (i bytes : Nat) (st : State), i + m ≤ 10 ^ 16 → bytes + 48 * m < 2 ^ 64 →
      st.nrand = k + 31 * i →
      write_loop w m i bytes st
        = Res.ret (bytes + 48 * m)
            { st with log := st.log ++ (List.range m).map (fun t => expected_add w.rand k (i + t)),
                      nrand := k + 31 * (i + m) } := by
  induction m with
  | zero =>
    intro i bytes st _ _ hk
    simp [write_loop, ← hk]
  | succ m ih =>
    intro i bytes st hi hb hk
    have hkey : snprintf 100 (fmt_016d i) = fmt_016d i := snprintf_key i (by omega)
    have hlen : (fmt_016d i).length = 16 := fmt_016d_length i (by omega)
    have hval := random_value_32 w.rand st.nrand
    have hmod : (bytes + (16 + 16 * 2)) % 2 ^ 64 = bytes + 48 := by
      apply Nat.mod_eq_of_lt
      omega
    have hrec := ih (i + 1) (bytes + 48)
      (emit (expected_add w.rand k i) { st with nrand := k + 31 * (i + 1) })
      (by omega) (by omega) rfl
    simp only [write_loop, hkey, hlen, store_call, hok, if_true, hval.1, hval.2, hmod]
    have hev : Event.zsdb_add (fmt_016d i) 16 ((drawn w.rand st.nrand 31).map some ++ [some '\x00'])
        (16 * 2) = expected_add w.rand k i := by
      simp [expected_add, hk]
    have hn : st.nrand + 31 = k + 31 * (i + 1) := by omega
    rw [hev, hn, hrec]
    have hrange : (List.range (m + 1)).map (fun t => expected_add w.rand k (i + t))
        = expected_add w.rand k i
            :: (List.range m).map (fun t => expected_add w.rand k (i + 1 + t)) := by
      simp [List.range_succ_eq_map, Function.comp_def, Nat.add_assoc, Nat.add_comm 1]
    rw [hrange]
    simp [emit, Nat.add_assoc, Nat.mul_add, Nat.add_comm 1]
    omega

theorem insert_keys_append (a b : List Event) :
    insert_keys (a ++ b) = insert_keys a ++ insert_keys b := by
  induction a with
  | nil => rfl
  | cons e a ih => cases e <;> simp [insert_keys, ih]

theorem insert_bytes_append (a b : List Event) :
    insert_bytes (a ++ b) = insert_bytes a + insert_bytes b := by
  induction a with
  | nil => simp [insert_bytes]
  | cons e a ih => cases e <;> simp [insert_bytes, ih, Nat.add_assoc]

theorem insert_keys_expected (rand : Nat → Nat) (k : Nat) (l : List Nat) :
    insert_keys (l.map (fun i => expected_add rand k i)) = l.map fmt_016d := by
  induction l with
  | nil => rfl
  | cons i l ih =>
    simp only [expected_add] at ih
    simp [expected_add, insert_keys, ih]

theorem insert_bytes_expected (rand : Nat → Nat) (k : Nat) (l : List Nat) :
    insert_bytes (l.map (fun i => expected_add rand k i)) = 48 * l.length := by
  induction l with
  | nil => rfl
  | cons i l ih =>
    simp only [List.map_cons, expected_add, insert_bytes, List.length_cons] at ih ⊢
    rw [ih]
    omega

theorem do_write_seq_ok (w : World) (st : State) (N : Nat) (hN : N < 2 ^ 31)
    (hrecs : st.NUMRECS.toNat = N) (hok : ∀ h, w.store h = ZS_OK) :
    do_write_seq w st
      = Res.ret (48 * N)
          { st with log := st.log ++ expected_session w.rand st.nrand st.DBNAME st.new_db N,
                    nrand := st.nrand + 31 * N } := by
  have hloop := write_loop_ok w hok st.nrand N 0 0
    (emit Event.zsdb_write_lock_acquire
      (emit (Event.zsdb_open st.DBNAME (if st.new_db ≠ 0 then Mode.MODE_CREATE else Mode.MODE_RDWR))
        (emit Event.zsdb_init st)))
    (by norm_num; omega) (by norm_num; omega) (by simp [emit])
  simp only [Nat.zero_add] at hloop
  simp only [do_write_seq, store_call, hok, emit, hrecs, ne_eq, not_true,
    if_false] at hloop ⊢
  rw [hloop]
  simp [expected_session, ZS_OK]

/-- Claim C1. For a record count `N` (the value of the `int` `NUMRECS`), when
every store operation succeeds, `do_write_seq` returns the byte count `48 * N`
and extends the trace by `zsdb_init`, `zsdb_open`, the lock, exactly `N`
`zsdb_add` calls, then unlock, commit, close and final; call `i` has the key
`fmt_016d i` (16 characters, zero padded decimal of `i`), key length 16 and
value length 32; the keys are pairwise distinct; and `48 * N` is the sum over
the inserts of key length plus value length. -/
theorem do_write_seq_spec (w : World) (st : State) (N : Nat) (hN : N < 2 ^ 31)
    (hrecs : st.NUMRECS = (N : Int)) (hok : ∀ h, w.store h = ZS_OK) :
    do_write_seq w st
      = Res.ret (48 * N)
          { st with log := st.log ++ expected_session w.rand st.nrand st.DBNAME st.new_db N,
                    nrand := st.nrand + 31 * N }
    ∧ insert_keys (expected_session w.rand st.nrand st.DBNAME st.new_db N)
        = (List.range N).map fmt_016d
    ∧ (insert_keys (expected_session w.rand st.nrand st.DBNAME st.new_db N)).length = N
    ∧ (∀ i, i < N → (fmt_016d i).length = 16 ∧ dec_value (fmt_016d i) = i
        ∧ fmt_016d i = List.replicate (16 - (decimal i).length) '0' ++ decimal i)
    ∧ ((List.range N).map fmt_016d).Nodup
    ∧ insert_bytes (expected_session w.rand st.nrand st.DBNAME st.new_db N) = 48 * N := by
  have hkeys : insert_keys (expected_session w.rand st.nrand st.DBNAME st.new_db N)
      = (List.range N).map fmt_016d := by
    simp [expected_session, insert_keys_append, insert_keys, insert_keys_expected]
  refine ⟨do_write_seq_ok w st N hN (by rw [hrecs]; rfl) hok, hkeys, ?_, ?_, ?_, ?_⟩
  · simp [hkeys]
  · intro i hi
    exact ⟨fmt_016d_length i (by norm_num at hN ⊢; omega), dec_value_fmt_016d i, rfl⟩
  · exact (List.nodup_range N).map (fun i j h => fmt_016d_injective i j h)
  · simp [expected_session, insert_bytes_append, insert_bytes, insert_bytes_expected]

/-- Witness of `do_write_seq_spec`: two records, every store operation succeeds. -/
theorem do_write_seq_spec_witness :
    do_write_seq (sample_world 0) { State.start with NUMRECS := 2 }
      = Res.ret 96
          { State.start with
              NUMRECS := 2,
              log := expected_session (sample_world 0).rand 0 none 0 2,
              nrand := 62 }
    ∧ insert_keys (expected_session (sample_world 0).rand 0 none 0 2)
        = ["0000000000000000".toList, "0000000000000001".toList] :=
  ⟨(do_write_seq_spec (sample_world 0) { State.start with NUMRECS := 2 } 2 (by decide) rfl
      (fun _ => rfl)).1,
    by decide⟩

/-! ## Workspace provisioner: `create_tmp_dir_name` -/


theorem encoded_succ (m v : Nat) :
    encoded (m + 1) v = tmp_charset.getD (v % 62) '\x00' :: encoded m (v / 62) := by
  simp [encoded, List.range_succ_eq_map, Function.comp_def, Nat.div_div_eq_div_mul, pow_succ,
    Nat.mul_comm]

theorem fill_random_bits_append (off : Nat) (m : Nat) :
    ∀ (j v : Nat) (pre mid post : List Char), pre.length = off + j → mid.length = m →
      fill_random_bits off m j v (pre ++ mid ++ post) = pre ++ encoded m v ++ post := by
  induction m with
  | zero =>
    intro j v pre mid post _ h
    have : mid = [] := List.length_eq_zero.mp h
    simp [fill_random_bits, encoded, this]
  | succ m ih =>
    intro j v pre mid post hpre h
    obtain ⟨x, mid1, rfl⟩ : ∃ x mid1, mid = x :: mid1 := by
      cases mid with
      | nil => simp at h
      | cons x mid1 => exact ⟨x, mid1, rfl⟩
    have hlen : mid1.length = m := by simpa using h
    have hset : (pre ++ (x :: mid1) ++ post).set (off + j) (tmp_charset.getD (v % 62) '\x00')
        = (pre ++ [tmp_charset.getD (v % 62) '\x00']) ++ mid1 ++ post := by
      have := set_length_append pre x (tmp_charset.getD (v % 62) '\x00') (mid1 ++ post)
      rw [hpre] at this
      simp at this
      simp [this]
    have hrec := ih (j + 1) (v / 62) (pre ++ [tmp_charset.getD (v % 62) '\x00']) mid1 post
      (by simp [hpre, Nat.add_assoc]) hlen
    simp only [fill_random_bits, num_chars, hset, hrec, encoded_succ]
    simp

theorem fill_random_bits_tail (path : List Char) (v : Nat) (h : 6 ≤ path.length) :
    fill_random_bits (path.length - 6) 6 0 v path = path.take (path.length - 6) ++ tmp_suffix v := by
  have hsplit : path = path.take (path.length - 6) ++ path.drop (path.length - 6) ++ [] := by simp
  have h1 : (path.take (path.length - 6)).length = path.length - 6 + 0 := by
    rw [List.length_take]; omega
  have h2 : (path.drop (path.length - 6)).length = 6 := by
    rw [List.length_drop]; omega
  have := fill_random_bits_append (path.length - 6) 6 0 v _ _ [] h1 h2
  rw [← hsplit] at this
  simpa [encoded, tmp_suffix] using this


theorem tmp_suffix_length (v : Nat) : (tmp_suffix v).length = 6 := by
  simp [tmp_suffix]

theorem tmp_attempt_eq (i : Nat) :
    ∀ (v : Nat) (path : List Char), v < 2 ^ 64 → 6 ≤ path.length →
      tmp_attempt (path.length - 6) i v path
        = ((v + 9999 * i) % 2 ^ 64,
            path.take (path.length - 6) ++ tmp_suffix ((v + 9999 * i) % 2 ^ 64)) := by
  induction i with
  | zero =>
    intro v path hv h
    have hmod : (v + 9999 * 0) % 2 ^ 64 = v := by
      rw [Nat.mul_zero, Nat.add_zero]; exact Nat.mod_eq_of_lt hv
    rw [hmod]
    simp only [tmp_attempt, fill_random_bits_tail path v h]
  | succ i ih =>
    intro v path hv h
    have hlen : (path.take (path.length - 6) ++ tmp_suffix v).length = path.length := by
      rw [List.length_append, List.length_take, tmp_suffix_length]; omega
    have htake : (path.take (path.length - 6) ++ tmp_suffix v).take (path.length - 6)
        = path.take (path.length - 6) := by
      apply List.take_left'
      rw [List.length_take]; omega
    have hrec := ih ((v + 9999) % 2 ^ 64) (path.take (path.length - 6) ++ tmp_suffix v)
      (Nat.mod_lt _ (by norm_num)) (by omega)
    rw [hlen, htake] at hrec
    have hval : ((v + 9999) % 2 ^ 64 + 9999 * i) % 2 ^ 64 = (v + 9999 * (i + 1)) % 2 ^ 64 := by
      norm_num
      omega
    rw [hval] at hrec
    simp only [tmp_attempt, fill_random_bits_tail path v h]
    exact hrec

theorem tmp_loop_some (stat : List Char → StatResult) (off : Nat) (n : Nat) :
    ∀ (v : Nat) (path P : List Char),
      tmp_loop stat off n v path = some P ↔
        ∃ i, i < n ∧ stat (tmp_attempt off i v path).2 = StatResult.enoent
          ∧ (∀ k, k < i → stat (tmp_attempt off k v path).2 ≠ StatResult.enoent)
          ∧ P = (tmp_attempt off i v path).2 := by
  induction n with
  | zero => intro v path P; simp [tmp_loop]
  | succ n ih =>
    intro v path P
    by_cases h0 : stat (fill_random_bits off 6 0 v path) = StatResult.enoent
    · simp only [tmp_loop, h0, if_true, Option.some.injEq]
      constructor
      · intro h
        exact ⟨0, Nat.succ_pos n, h0, fun k hk => absurd hk (Nat.not_lt_zero k), h.symm⟩
      · rintro ⟨i, _, _, hmin, hP⟩
        cases i with
        | zero => exact hP.symm
        | succ i => exact absurd h0 (hmin 0 (Nat.succ_pos i))
    · simp only [tmp_loop, h0, if_false]
      rw [ih]
      constructor
      · rintro ⟨i, hi, hst, hmin, hP⟩
        refine ⟨i + 1, Nat.succ_lt_succ hi, hst, ?_, hP⟩
        intro k hk
        cases k with
        | zero => exact h0
        | succ k => exact hmin k (Nat.lt_of_succ_lt_succ hk)
      · rintro ⟨i, hi, hst, hmin, hP⟩
        cases i with
        | zero => exact absurd hst h0
        | succ i =>
          exact ⟨i, Nat.lt_of_succ_lt_succ hi, hst,
            fun k hk => hmin (k + 1) (Nat.succ_lt_succ hk), hP⟩

theorem tmp_loop_none (stat : List Char → StatResult) (off : Nat) (n : Nat) :
    ∀ (v : Nat) (path : List Char),
      tmp_loop stat off n v path = none ↔
        ∀ i, i < n → stat (tmp_attempt off i v path).2 ≠ StatResult.enoent := by
  induction n with
  | zero => intro v path; simp [tmp_loop]
  | succ n ih =>
    intro v path
    by_cases h0 : stat (fill_random_bits off 6 0 v path) = StatResult.enoent
    · simp only [tmp_loop, h0, if_true]
      constructor
      · intro h; cases h
      · intro h; exact absurd h0 (h 0 (Nat.succ_pos n))
    · simp only [tmp_loop, h0, if_false]
      rw [ih]
      constructor
      · intro h i hi
        cases i with
        | zero => exact h0
        | succ i => exact h i (Nat.lt_of_succ_lt_succ hi)
      · intro h i hi
        exact h (i + 1) (Nat.succ_lt_succ hi)


theorem tmp_charset_length : tmp_charset.length = 62 := by decide

theorem tmp_charset_nodup : tmp_charset.Nodup := by decide

theorem tmp_charset_getD_inj (x y : Nat) (hx : x < 62) (hy : y < 62)
    (h : tmp_charset.getD x '\x00' = tmp_charset.getD y '\x00') : x = y := by
  have hx1 : x < tmp_charset.length := by rw [tmp_charset_length]; exact hx
  have hy1 : y < tmp_charset.length := by rw [tmp_charset_length]; exact hy
  rw [List.getD_eq_getElem _ _ hx1, List.getD_eq_getElem _ _ hy1] at h
  exact (tmp_charset_nodup.getElem_inj_iff).mp h

theorem tmp_suffix_eq (v : Nat) :
    tmp_suffix v =
      [tmp_charset.getD (v / 62 ^ 0 % 62) '\x00', tmp_charset.getD (v / 62 ^ 1 % 62) '\x00',
       tmp_charset.getD (v / 62 ^ 2 % 62) '\x00', tmp_charset.getD (v / 62 ^ 3 % 62) '\x00',
       tmp_charset.getD (v / 62 ^ 4 % 62) '\x00', tmp_charset.getD (v / 62 ^ 5 % 62) '\x00'] := rfl

theorem tmp_suffix_inj (a b : Nat) (h : tmp_suffix a = tmp_suffix b) :
    a % 62 ^ 6 = b % 62 ^ 6 := by
  rw [tmp_suffix_eq, tmp_suffix_eq] at h
  simp only [List.cons.injEq, and_true] at h
  obtain ⟨h0, h1, h2, h3, h4, h5⟩ := h
  have m : ∀ x : Nat, x % 62 < 62 := fun x => Nat.mod_lt _ (by norm_num)
  have e0 := tmp_charset_getD_inj _ _ (m _) (m _) h0
  have e1 := tmp_charset_getD_inj _ _ (m _) (m _) h1
  have e2 := tmp_charset_getD_inj _ _ (m _) (m _) h2
  have e3 := tmp_charset_getD_inj _ _ (m _) (m _) h3
  have e4 := tmp_charset_getD_inj _ _ (m _) (m _) h4
  have e5 := tmp_charset_getD_inj _ _ (m _) (m _) h5
  norm_num at e0 e1 e2 e3 e4 e5 ⊢
  omega

theorem attempts_differ (v i k : Nat) (hik : i < k) (hk : k < 62 ^ 6) :
    (v + 9999 * i) % 62 ^ 6 ≠ (v + 9999 * k) % 62 ^ 6 := by
  intro h
  have hsub : (v + 9999 * k) - (v + 9999 * i) = 9999 * (k - i) := by omega
  have hzero := Nat.sub_mod_eq_zero_of_mod_eq h.symm
  rw [hsub] at hzero
  have hdvd : 62 ^ 6 ∣ 9999 * (k - i) := Nat.dvd_of_mod_eq_zero hzero
  have hco : Nat.Coprime (62 ^ 6) 9999 := by norm_num
  have hd : 62 ^ 6 ∣ k - i := hco.dvd_of_dvd_mul_left hdvd
  have hpos : 0 < k - i := Nat.sub_pos_of_lt hik
  have hle := Nat.le_of_dvd hpos hd
  have hlt : k - i < 62 ^ 6 := lt_of_le_of_lt (Nat.sub_le k i) hk
  exact absurd hle (not_le.mpr hlt)

theorem tmp_seed_lt (tv : Timeval) (pid : Nat) : tmp_seed tv pid < 2 ^ 64 :=
  Nat.mod_lt _ (by norm_num)

theorem tmp_seed_any (v : Nat) (hv : v < 2 ^ 64) : tmp_seed (Timeval.mk v 0) 0 = v := by
  have hv1 : v < 18446744073709551616 := by norm_num at hv; exact hv
  simp [tmp_seed, Nat.mod_eq_of_lt hv1]

theorem tmp_template_length (tmpdir : Option (List Char)) :
    6 ≤ (tmp_template tmpdir).length := by
  simp only [tmp_template, snprintf, PATH_MAX, List.length_take, List.length_append]
  have : "/zsbench-XXXXXX".toList.length = 15 := by decide
  omega

theorem tmp_template_short (tmpdir : Option (List Char))
    (h : (tmpdir.getD "/tmp".toList).length + 15 < PATH_MAX) :
    (tmp_template tmpdir).take ((tmp_template tmpdir).length - 6)
      = tmpdir.getD "/tmp".toList ++ "/zsbench-".toList := by
  have hfit : tmp_template tmpdir = tmpdir.getD "/tmp".toList ++ "/zsbench-XXXXXX".toList := by
    simp only [tmp_template, snprintf]
    apply List.take_of_length_le
    have : "/zsbench-XXXXXX".toList.length = 15 := by decide
    rw [List.length_append, this]
    omega
  have hlit : "/zsbench-XXXXXX".toList = "/zsbench-".toList ++ "XXXXXX".toList := by decide
  rw [hfit, hlit, ← List.append_assoc]
  apply List.take_left'
  have : "XXXXXX".toList.length = 6 := by decide
  simp only [List.length_append, this]
  omega

theorem tmp_candidate_eq (tv : Timeval) (pid : Nat) (tmpdir : Option (List Char)) (i : Nat) :
    tmp_candidate tv pid tmpdir i
      = (tmp_template tmpdir).take ((tmp_template tmpdir).length - 6)
          ++ tmp_suffix ((tmp_seed tv pid + 9999 * i) % 2 ^ 64) := by
  unfold tmp_candidate
  rw [tmp_attempt_eq i _ _ (tmp_seed_lt tv pid) (tmp_template_length tmpdir)]

/-- Claim C3. For every seed (every result of `gettimeofday` and `getpid`),
every base directory and every behaviour of the existence check,
`create_tmp_dir_name` returns the path `P` exactly when `P` is the candidate of
the first attempt, among the attempts `0 .. TMP_MAX - 1`, whose check reports
"does not exist" (attempts reporting "exists" or another error are passed over
alike); it returns NULL exactly when no attempt within the bound reports "does
not exist"; and a returned path was reported as not existing, never as existing.
The candidate of attempt `i` is the template with its last six characters
replaced by the encoding of `(seed + 9999 * i) mod 2 ^ 64`. -/
theorem create_tmp_dir_name_first_unused (tv : Timeval) (pid : Nat)
    (tmpdir : Option (List Char)) (stat : List Char → StatResult) (P : List Char) :
    (create_tmp_dir_name tv pid tmpdir stat = some P ↔
      ∃ i, i < TMP_MAX ∧ stat (tmp_candidate tv pid tmpdir i) = StatResult.enoent
        ∧ (∀ k, k < i → stat (tmp_candidate tv pid tmpdir k) ≠ StatResult.enoent)
        ∧ P = tmp_candidate tv pid tmpdir i)
    ∧ (create_tmp_dir_name tv pid tmpdir stat = none ↔
        ∀ i, i < TMP_MAX → stat (tmp_candidate tv pid tmpdir i) ≠ StatResult.enoent)
    ∧ (create_tmp_dir_name tv pid tmpdir stat = some P →
        stat P = StatResult.enoent ∧ stat P ≠ StatResult.found)
    ∧ (∀ i, tmp_candidate tv pid tmpdir i
        = (tmp_template tmpdir).take ((tmp_template tmpdir).length - 6)
            ++ tmp_suffix ((tmp_seed tv pid + 9999 * i) % 2 ^ 64)) := by
  have hsome := tmp_loop_some stat ((tmp_template tmpdir).length - 6) TMP_MAX
    (tmp_seed tv pid) (tmp_template tmpdir) P
  have hnone := tmp_loop_none stat ((tmp_template tmpdir).length - 6) TMP_MAX
    (tmp_seed tv pid) (tmp_template tmpdir)
  refine ⟨hsome, hnone, ?_, tmp_candidate_eq tv pid tmpdir⟩
  intro h
  obtain ⟨i, _, hst, _, hP⟩ := hsome.mp h
  have hstat : stat P = StatResult.enoent := by rw [hP]; exact hst
  exact ⟨hstat, by rw [hstat]; decide⟩

theorem create_tmp_dir_name_attempt_zero (tv : Timeval) (pid : Nat) (tmpdir : Option (List Char))
    (stat : List Char → StatResult)
    (h : stat (tmp_candidate tv pid tmpdir 0) = StatResult.enoent) :
    create_tmp_dir_name tv pid tmpdir stat = some (tmp_candidate tv pid tmpdir 0) := by
  apply (tmp_loop_some stat ((tmp_template tmpdir).length - 6) TMP_MAX
    (tmp_seed tv pid) (tmp_template tmpdir) _).mpr
  exact ⟨0, by decide, h, fun k hk => absurd hk (Nat.not_lt_zero k), rfl⟩


theorem tmp_suffix_getElem_opt (v j : Nat) (hj : j < 6) :
    (tmp_suffix v)[j]? = tmp_charset[v / 62 ^ j % 62]? := by
  have h : v / 62 ^ j % 62 < tmp_charset.length := by
    rw [tmp_charset_length]; exact Nat.mod_lt _ (by norm_num)
  simp [tmp_suffix, hj, List.getD_eq_getElem _ _ h, List.getElem?_eq_getElem h]

/-- Claim C4, amended. When the base directory `d` (the value of `TMPDIR`, or
`/tmp`) is short enough for the template to fit the path buffer
(`strlen(d) + 15 < PATH_MAX`), the candidate of attempt `i` is `d`, then
`/zsbench-`, then the six characters encoding `(v + 9999 * i) mod 2 ^ 64` for
the seed `v`, character `j` being the entry of the 62-symbol alphabet at index
`(v / 62 ^ j) mod 62`; and when the first candidate does not exist (as in an
empty directory), `create_tmp_dir_name` returns it. Every 64-bit value is a
seed. -/
theorem create_tmp_dir_name_deterministic (tv : Timeval) (pid : Nat)
    (tmpdir : Option (List Char)) (stat : List Char → StatResult)
    (hlen : (tmpdir.getD "/tmp".toList).length + 15 < PATH_MAX) :
    (∀ i, tmp_candidate tv pid tmpdir i
        = tmpdir.getD "/tmp".toList ++ "/zsbench-".toList
            ++ tmp_suffix ((tmp_seed tv pid + 9999 * i) % 2 ^ 64))
    ∧ (stat (tmpdir.getD "/tmp".toList ++ "/zsbench-".toList ++ tmp_suffix (tmp_seed tv pid))
          = StatResult.enoent →
        create_tmp_dir_name tv pid tmpdir stat
          = some (tmpdir.getD "/tmp".toList ++ "/zsbench-".toList
              ++ tmp_suffix (tmp_seed tv pid)))
    ∧ (∀ v, (tmp_suffix v).length = 6)
    ∧ (∀ v j, j < 6 → (tmp_suffix v)[j]? = tmp_charset[v / 62 ^ j % 62]?)
    ∧ tmp_charset.length = 62
    ∧ (∀ v, v < 2 ^ 64 → tmp_seed (Timeval.mk v 0) 0 = v) := by
  have hcand : ∀ i, tmp_candidate tv pid tmpdir i
      = tmpdir.getD "/tmp".toList ++ "/zsbench-".toList
          ++ tmp_suffix ((tmp_seed tv pid + 9999 * i) % 2 ^ 64) := by
    intro i
    rw [tmp_candidate_eq, tmp_template_short tmpdir hlen]
  have h0 : (tmp_seed tv pid + 9999 * 0) % 2 ^ 64 = tmp_seed tv pid := by
    rw [Nat.mul_zero, Nat.add_zero]
    exact Nat.mod_eq_of_lt (tmp_seed_lt tv pid)
  refine ⟨hcand, ?_, tmp_suffix_length, tmp_suffix_getElem_opt, tmp_charset_length,
    tmp_seed_any⟩
  intro hst
  have hc0 := hcand 0
  rw [h0] at hc0
  rw [← hc0] at hst ⊢
  exact create_tmp_dir_name_attempt_zero tv pid tmpdir stat hst

theorem tmp_template_4090 (d : List Char) (hd : d.length = 4090) :
    (tmp_template (some d)).take ((tmp_template (some d)).length - 6) = d.take 4089 := by
  have hlit : "/zsbench-XXXXXX".toList.length = 15 := by decide
  have hL : (tmp_template (some d)).length = 4095 := by
    simp only [tmp_template, snprintf, PATH_MAX, Option.getD_some, List.length_take,
      List.length_append, hd, hlit]
    rfl
  rw [hL]
  simp only [tmp_template, snprintf, PATH_MAX, Option.getD_some]
  rw [List.take_take]
  have hmin : min (4095 - 6) (4096 - 1) = 4089 := by decide
  rw [hmin]
  exact List.take_append_of_le_length (by omega)

/-- Counterexample to claim C4 as stated: with `TMPDIR` set to 4090 slashes (a
name of the root directory) the template is cut to `PATH_MAX - 1 = 4095`
characters, and the path returned is 4089 characters of the directory followed
by the six generated ones, not the directory followed by `/zsbench-` and the
suffix. -/
theorem create_tmp_dir_name_long_tmpdir :
    create_tmp_dir_name (Timeval.mk 0 0) 0 (some (List.replicate 4090 '/'))
        (fun _ => StatResult.enoent)
      = some (List.replicate 4089 '/' ++ "aaaaaa".toList)
    ∧ create_tmp_dir_name (Timeval.mk 0 0) 0 (some (List.replicate 4090 '/'))
        (fun _ => StatResult.enoent)
      ≠ some (List.replicate 4090 '/' ++ "/zsbench-".toList
          ++ tmp_suffix (tmp_seed (Timeval.mk 0 0) 0)) := by
  have hfirst := create_tmp_dir_name_attempt_zero (Timeval.mk 0 0) 0 (some (List.replicate 4090 '/'))
    (fun _ => StatResult.enoent) rfl
  have hseed : (tmp_seed (Timeval.mk 0 0) 0 + 9999 * 0) % 2 ^ 64 = 0 := by decide
  have hsuf : tmp_suffix 0 = "aaaaaa".toList := by decide
  have htake : (List.replicate 4090 '/').take 4089 = List.replicate 4089 '/' := by
    rw [List.take_replicate]
    rfl
  rw [tmp_candidate_eq, hseed, hsuf, tmp_template_4090 _ (List.length_replicate 4090 '/'),
    htake] at hfirst
  refine ⟨hfirst, ?_⟩
  rw [hfirst]
  intro h
  have hl := congrArg (fun o => o.map List.length) h
  simp only [Option.map_some', List.length_append, List.length_replicate,
    tmp_suffix_length] at hl
  revert hl
  decide

/-- Witness of `create_tmp_dir_name_deterministic`: `TMPDIR` unset, an empty `/tmp`. -/
theorem create_tmp_dir_name_deterministic_witness :
    ("/tmp".toList).length + 15 < PATH_MAX
    ∧ create_tmp_dir_name (Timeval.mk 1 2) 3 none (fun _ => StatResult.enoent)
        = some ("/tmp".toList ++ "/zsbench-".toList ++ tmp_suffix (tmp_seed (Timeval.mk 1 2) 3)) :=
  ⟨by decide,
    (create_tmp_dir_name_deterministic (Timeval.mk 1 2) 3 none (fun _ => StatResult.enoent)
      (by decide)).2.1 rfl⟩

/-- Claim C10. Within one call of `create_tmp_dir_name`, for attempt indices
`i < k < 62 ^ 6` with `v + 9999 * k < 2 ^ 64` (no wrap-around of the 64-bit
value), the six-character suffixes generated in attempts `i` and `k` differ,
and so do the candidate paths: the suffix determines its value modulo `62 ^ 6`
and `9999` is coprime to `62 ^ 6`. -/
theorem tmp_candidates_distinct (tv : Timeval) (pid : Nat) (tmpdir : Option (List Char))
    (i k : Nat) (hik : i < k) (hk : k < 62 ^ 6) (hwrap : tmp_seed tv pid + 9999 * k < 2 ^ 64) :
    (tmp_candidate tv pid tmpdir i).drop ((tmp_template tmpdir).length - 6)
        = tmp_suffix (tmp_seed tv pid + 9999 * i)
    ∧ (tmp_candidate tv pid tmpdir k).drop ((tmp_template tmpdir).length - 6)
        = tmp_suffix (tmp_seed tv pid + 9999 * k)
    ∧ tmp_suffix (tmp_seed tv pid + 9999 * i) ≠ tmp_suffix (tmp_seed tv pid + 9999 * k)
    ∧ tmp_candidate tv pid tmpdir i ≠ tmp_candidate tv pid tmpdir k
    ∧ (∀ a b, tmp_suffix a = tmp_suffix b → a % 62 ^ 6 = b % 62 ^ 6)
    ∧ Nat.Coprime 9999 (62 ^ 6) := by
  have hi : (tmp_seed tv pid + 9999 * i) % 2 ^ 64 = tmp_seed tv pid + 9999 * i :=
    Nat.mod_eq_of_lt (lt_of_le_of_lt (by omega) hwrap)
  have hkk : (tmp_seed tv pid + 9999 * k) % 2 ^ 64 = tmp_seed tv pid + 9999 * k :=
    Nat.mod_eq_of_lt hwrap
  have hpre : ((tmp_template tmpdir).take ((tmp_template tmpdir).length - 6)).length
      = (tmp_template tmpdir).length - 6 := by
    rw [List.length_take]; omega
  have hci := tmp_candidate_eq tv pid tmpdir i
  have hck := tmp_candidate_eq tv pid tmpdir k
  rw [hi] at hci
  rw [hkk] at hck
  have hne : tmp_suffix (tmp_seed tv pid + 9999 * i) ≠ tmp_suffix (tmp_seed tv pid + 9999 * k) :=
    fun h => attempts_differ (tmp_seed tv pid) i k hik hk (tmp_suffix_inj _ _ h)
  refine ⟨?_, ?_, hne, ?_, tmp_suffix_inj, by norm_num⟩
  · rw [hci]; exact List.drop_left' hpre
  · rw [hck]; exact List.drop_left' hpre
  · rw [hci, hck]
    intro h
    exact hne (List.append_cancel_left h)

/-- Witness of `tmp_candidates_distinct`: the first two attempts of a run. -/
theorem tmp_candidates_distinct_witness :
    tmp_candidate (Timeval.mk 1 2) 3 none 0 ≠ tmp_candidate (Timeval.mk 1 2) 3 none 1 :=
  (tmp_candidates_distinct (Timeval.mk 1 2) 3 none 0 1 (by decide) (by norm_num)
    (by decide)).2.2.2.1

/-! ## The lookup tool: `cmd_get` -/


theorem get_options_accepts (opts : List (Char × Option (List Char)))
    (h : ∀ o ∈ opts, o.1 = 'c') :
    ∀ c0, ∃ config_file, get_options opts c0 = some config_file := by
  induction opts with
  | nil => intro c0; exact ⟨c0, rfl⟩
  | cons o opts ih =>
    intro c0
    obtain ⟨option, optarg⟩ := o
    have ho : option = 'c' := h (option, optarg) (List.mem_cons_self _ _)
    have hrest : ∀ o ∈ opts, o.1 = 'c' := fun o ho => h o (List.mem_cons_of_mem _ ho)
    obtain ⟨cfg, hcfg⟩ := ih hrest optarg
    exact ⟨cfg, by simp [get_options, ho, hcfg]⟩

/-- Claim C7. Once `cmd_get` has accepted its arguments (only `-c` options, two
positional arguments), whatever the statuses of init, open, fetch and close,
the exit status is zero exactly when init succeeded, open succeeded, the fetch
found the key and close succeeded; in every other case it is `EXIT_FAILURE`,
which is not zero. -/
theorem cmd_get_exit_status (s : GetStore) (progname cmd_get_usage : List Char)
    (opts : List (Char × Option (List Char))) (dbname key : List Char)
    (hopts : ∀ o ∈ opts, o.1 = 'c') :
    ((cmd_get s progname cmd_get_usage opts [dbname, key]).1 = 0 ↔
      s.init = ZS_OK ∧ s.opened = ZS_OK ∧ s.fetch = ZS_OK ∧ s.close = ZS_OK)
    ∧ (¬ (s.init = ZS_OK ∧ s.opened = ZS_OK ∧ s.fetch = ZS_OK ∧ s.close = ZS_OK) →
        (cmd_get s progname cmd_get_usage opts [dbname, key]).1 = EXIT_FAILURE
        ∧ (cmd_get s progname cmd_get_usage opts [dbname, key]).1 ≠ 0) := by
  obtain ⟨cfg, hcfg⟩ := get_options_accepts opts hopts none
  have key_fact : (cmd_get s progname cmd_get_usage opts [dbname, key]).1
      = if s.init = ZS_OK ∧ s.opened = ZS_OK ∧ s.fetch = ZS_OK ∧ s.close = ZS_OK
        then 0 else 1 := by
    simp only [cmd_get, hcfg, cmd_get_done, ZS_OK, EXIT_FAILURE, EXIT_SUCCESS]
    by_cases h1 : s.init = 0 <;> by_cases h2 : s.opened = 0 <;> by_cases h3 : s.fetch = 0
      <;> by_cases h4 : s.close = 0 <;> simp [h1, h2, h3, h4]
  rw [key_fact]
  by_cases h : s.init = ZS_OK ∧ s.opened = ZS_OK ∧ s.fetch = ZS_OK ∧ s.close = ZS_OK
  · simp [h]
  · simp [h, EXIT_FAILURE]

/-- Witness of `cmd_get_exit_status`: every operation succeeds, exit status 0. -/
theorem cmd_get_exit_status_witness :
    (cmd_get (GetStore.mk 0 0 0 0 "v".toList) "zeroskip".toList "get DB KEY".toList
      [('c', some "zs.conf".toList)] ["db".toList, "k".toList]).1 = 0 :=
  (cmd_get_exit_status (GetStore.mk 0 0 0 0 "v".toList) "zeroskip".toList "get DB KEY".toList
    [('c', some "zs.conf".toList)] "db".toList "k".toList (by simp)).1.mpr ⟨rfl, rfl, rfl, rfl⟩


theorem calls_value_output (e : Event) (value : List Char) (h : ∀ t, e ≠ Event.stderr t) :
    calls e (value.map (fun c => Event.stderr [c])) = 0 := by
  unfold calls
  rw [List.count_eq_zero]
  intro hmem
  obtain ⟨c, _, hc⟩ := List.mem_map.mp hmem
  exact h [c] hc.symm

theorem cmd_get_done_eq (s : GetStore) (ret : Int) (log : List Event) :
    cmd_get_done s ret log
      = (if s.close ≠ ZS_OK then EXIT_FAILURE else ret,
          log ++ [Event.zsdb_close]
            ++ (if s.close ≠ ZS_OK then [Event.stderr "ERROR: Could not close DB.\n".toList]
                else [])
            ++ [Event.zsdb_final]) := by
  by_cases h : s.close = ZS_OK <;> simp [cmd_get_done, h]

theorem cmd_get_shape (s : GetStore) (progname cmd_get_usage : List Char)
    (opts : List (Char × Option (List Char))) (dbname key : List Char)
    (hopts : ∀ o ∈ opts, o.1 = 'c') :
    ∃ (before : List Event) (ret : Int),
      (∀ status : Int,
        cmd_get { s with close := status } progname cmd_get_usage opts [dbname, key]
          = cmd_get_done { s with close := status } ret before)
      ∧ calls Event.zsdb_close before = 0 ∧ calls Event.zsdb_final before = 0
      ∧ (s.init ≠ ZS_OK → Event.stderr "ERROR: Failed initialising DB.\n".toList ∈ before)
      ∧ (s.init = ZS_OK → s.opened ≠ ZS_OK →
          Event.stderr ("ERROR: Could not open DB ".toList ++ dbname ++ ".\n".toList) ∈ before)
      ∧ (s.init = ZS_OK → s.opened = ZS_OK → s.fetch ≠ ZS_OK →
          Event.stderr ("ERROR: Cannot find record with key ".toList ++ key
            ++ " in ".toList ++ dbname ++ "\n".toList) ∈ before) := by
  obtain ⟨cfg, hcfg⟩ := get_options_accepts opts hopts none
  have hval := calls_value_output Event.zsdb_close s.value (by intro t; simp)
  have hval2 := calls_value_output Event.zsdb_final s.value (by intro t; simp)
  unfold calls at hval hval2
  by_cases h1 : s.init = ZS_OK
  · by_cases h2 : s.opened = ZS_OK
    · by_cases h3 : s.fetch = ZS_OK
      · have h3' : s.fetch = 0 := h3
        refine ⟨([Event.cmd_parse_config cfg, Event.zsdb_init] ++ [Event.zsdb_open (some dbname) Mode.MODE_RDWR]
            ++ [Event.zsdb_fetch key key.length]
            ++ [Event.stderr ("Found record with key ".toList ++ key
              ++ ", has value of length ".toList ++ decimal s.value.length ++ ": ".toList)]
            ++ s.value.map (fun c => Event.stderr [c]) ++ [Event.stderr "\n".toList]),
            EXIT_SUCCESS, fun status => ?_, ?_, ?_, ?_, ?_, ?_⟩
        · simp only [cmd_get, hcfg, h1, h2, h3', ne_eq, not_true_eq_false, if_false]
        · simp [calls, List.count_cons, List.count_append, hval]
        · simp [calls, List.count_cons, List.count_append, hval2]
        · intro h; exact absurd h1 h
        · intro _ h; exact absurd h2 h
        · intro _ _ h; exact absurd h3 h
      · have h3' : s.fetch ≠ 0 := h3
        refine ⟨([Event.cmd_parse_config cfg, Event.zsdb_init] ++ [Event.zsdb_open (some dbname) Mode.MODE_RDWR]
            ++ [Event.zsdb_fetch key key.length]
            ++ [Event.stderr ("ERROR: Cannot find record with key ".toList ++ key
              ++ " in ".toList ++ dbname ++ "\n".toList)]),
            EXIT_FAILURE, fun status => ?_, ?_, ?_, ?_, ?_, ?_⟩
        · simp only [cmd_get, hcfg, h1, h2, h3', ne_eq, not_true_eq_false, not_false_eq_true,
            if_false, if_true]
        · simp [calls, List.count_cons]
        · simp [calls, List.count_cons]
        · intro h; exact absurd h1 h
        · intro _ h; exact absurd h2 h
        · intro _ _ _; simp
    · refine ⟨([Event.cmd_parse_config cfg, Event.zsdb_init] ++ [Event.zsdb_open (some dbname) Mode.MODE_RDWR]
            ++ [Event.stderr ("ERROR: Could not open DB ".toList ++ dbname ++ ".\n".toList)]),
            EXIT_FAILURE, fun status => ?_, ?_, ?_, ?_, ?_, ?_⟩
      · simp only [cmd_get, hcfg, h1, h2, ne_eq, not_true_eq_false, not_false_eq_true,
          if_false, if_true]
      · simp [calls, List.count_cons]
      · simp [calls, List.count_cons]
      · intro h; exact absurd h1 h
      · intro _ _; simp
      · intro _ h; exact absurd h h2
  · refine ⟨([Event.cmd_parse_config cfg, Event.zsdb_init]
            ++ [Event.stderr "ERROR: Failed initialising DB.\n".toList]),
            EXIT_FAILURE, fun status => ?_, ?_, ?_, ?_, ?_, ?_⟩
    · simp only [cmd_get, hcfg, h1, ne_eq, not_false_eq_true, if_true]
    · simp [calls, List.count_cons]
    · simp [calls, List.count_cons]
    · intro _; simp
    · intro h; exact absurd h h1
    · intro h; exact absurd h h1

/-- Claim C8. Once the arguments of `cmd_get` are accepted, on every path (init
failed, open failed, key not found, key found) the trace is some actions
`before` that contain neither `zsdb_close` nor `zsdb_final`, then `zsdb_close`,
then the close diagnostic when (and only when) close failed, then `zsdb_final`:
close and finalize are each called exactly once, in this order, last. The
actions `before`, among them the diagnostic of an earlier failure, are the same
whatever the status of close; a failed close makes the exit status
`EXIT_FAILURE`. -/
theorem cmd_get_closes_once (s : GetStore) (progname cmd_get_usage : List Char)
    (opts : List (Char × Option (List Char))) (dbname key : List Char)
    (hopts : ∀ o ∈ opts, o.1 = 'c') :
    ∃ before : List Event,
      (∀ status : Int,
        (cmd_get { s with close := status } progname cmd_get_usage opts [dbname, key]).2
          = before ++ [Event.zsdb_close]
              ++ (if status ≠ ZS_OK then [Event.stderr "ERROR: Could not close DB.\n".toList]
                  else [])
              ++ [Event.zsdb_final])
      ∧ calls Event.zsdb_close before = 0 ∧ calls Event.zsdb_final before = 0
      ∧ calls Event.zsdb_close (cmd_get s progname cmd_get_usage opts [dbname, key]).2 = 1
      ∧ calls Event.zsdb_final (cmd_get s progname cmd_get_usage opts [dbname, key]).2 = 1
      ∧ (s.init ≠ ZS_OK → Event.stderr "ERROR: Failed initialising DB.\n".toList ∈ before)
      ∧ (s.init = ZS_OK → s.opened ≠ ZS_OK →
          Event.stderr ("ERROR: Could not open DB ".toList ++ dbname ++ ".\n".toList) ∈ before)
      ∧ (s.init = ZS_OK → s.opened = ZS_OK → s.fetch ≠ ZS_OK →
          Event.stderr ("ERROR: Cannot find record with key ".toList ++ key
            ++ " in ".toList ++ dbname ++ "\n".toList) ∈ before)
      ∧ (s.close ≠ ZS_OK →
          (cmd_get s progname cmd_get_usage opts [dbname, key]).1 = EXIT_FAILURE
          ∧ (cmd_get s progname cmd_get_usage opts [dbname, key]).1 ≠ 0) := by
  obtain ⟨before, ret, hshape, hc, hf, hd1, hd2, hd3⟩ :=
    cmd_get_shape s progname cmd_get_usage opts dbname key hopts
  have hs : cmd_get s progname cmd_get_usage opts [dbname, key] = cmd_get_done s ret before :=
    hshape s.close
  unfold calls at hc hf
  refine ⟨before, ?_, hc, hf, ?_, ?_, hd1, hd2, hd3, ?_⟩
  · intro status
    rw [hshape status, cmd_get_done_eq]
  · rw [hs, cmd_get_done_eq]
    by_cases h : s.close = ZS_OK <;> simp [calls, List.count_append, List.count_cons, hc, h]
  · rw [hs, cmd_get_done_eq]
    by_cases h : s.close = ZS_OK <;> simp [calls, List.count_append, List.count_cons, hf, h]
  · intro h
    rw [hs, cmd_get_done_eq]
    simp [h, EXIT_FAILURE]

/-- Witness of `cmd_get_closes_once`: the key is not found and close fails. -/
theorem cmd_get_closes_once_witness :
    calls Event.zsdb_close
        (cmd_get (GetStore.mk 0 0 1 1 []) "zeroskip".toList "get DB KEY".toList []
          ["db".toList, "missing".toList]).2 = 1
    ∧ calls Event.zsdb_final
        (cmd_get (GetStore.mk 0 0 1 1 []) "zeroskip".toList "get DB KEY".toList []
          ["db".toList, "missing".toList]).2 = 1 :=
  (cmd_get_closes_once (GetStore.mk 0 0 1 1 []) "zeroskip".toList "get DB KEY".toList []
    "db".toList "missing".toList (by simp)).elim (fun _ h => ⟨h.2.2.2.1, h.2.2.2.2.1⟩)

/-! ## The benchmark runner: `run_benchmarks` -/


theorem do_write_seq_frame (w : World) (hok : ∀ h, w.store h = ZS_OK) (st : State)
    (hrecs : st.NUMRECS < 2 ^ 31) :
    ∃ st2 : State,
      do_write_seq w st = Res.ret (48 * st.NUMRECS.toNat) st2
      ∧ st2.log = st.log ++ expected_session w.rand st.nrand st.DBNAME st.new_db st.NUMRECS.toNat
      ∧ st2.DBNAME = st.DBNAME ∧ st2.new_db = st.new_db ∧ st2.NUMRECS = st.NUMRECS
      ∧ st2.BENCHMARKS = st.BENCHMARKS := by
  have hN : st.NUMRECS.toNat < 2 ^ 31 := by
    norm_num at hrecs ⊢
    omega
  exact ⟨_, do_write_seq_ok w st st.NUMRECS.toNat hN rfl hok, rfl, rfl, rfl, rfl, rfl⟩

theorem run_loop_ok (w : World) (hok : ∀ h, w.store h = ZS_OK) (names : List (List Char)) :
    ∀ st : State, st.NUMRECS < 2 ^ 31 →
      ∃ (segs : List (List Event)) (st1 : State),
        run_loop w names st = Res.ret () st1
        ∧ st1.log = st.log ++ segs.flatten
        ∧ List.Forall₂ (dispatched w.rand st.DBNAME st.new_db st.NUMRECS) names segs
        ∧ st1.DBNAME = st.DBNAME ∧ st1.new_db = st.new_db ∧ st1.NUMRECS = st.NUMRECS
        ∧ st1.BENCHMARKS = st.BENCHMARKS := by
  induction names with
  | nil =>
    intro st _
    exact ⟨[], st, rfl, by simp, List.Forall₂.nil, rfl, rfl, rfl, rfl⟩
  | cons name rest ih =>
    intro st hrecs
    by_cases hseq : name = "writeseq".toList
    · obtain ⟨st2, hrun, hlog2, hd2, hn2, hr2, hb2⟩ :=
        do_write_seq_frame w hok (get_time_now w st).2 hrecs
      obtain ⟨segs, st1, hloop, hlog, hall, hd, hn, hr, hb⟩ :=
        ih (emit (Event.stderr (report_line (48 * st.NUMRECS.toNat)
              (((get_time_now w st2).1 + 2 ^ 64 - (get_time_now w st).1) % 2 ^ 64)))
            (get_time_now w st2).2)
          (by simp only [emit, get_time_now, hr2]; exact hrecs)
      simp only [emit, get_time_now] at hlog hall hd hn hr hb hlog2 hd2 hn2 hr2 hb2
      rw [hd2, hn2, hr2] at hall
      refine ⟨(expected_session w.rand st.nrand st.DBNAME st.new_db st.NUMRECS.toNat
          ++ [Event.stderr (report_line (48 * st.NUMRECS.toNat)
              (((get_time_now w st2).1 + 2 ^ 64 - (get_time_now w st).1) % 2 ^ 64))]) :: segs,
        st1, ?_, ?_, List.Forall₂.cons ⟨fun _ => ⟨_, _, rfl⟩, ?_, ?_⟩ hall,
        hd.trans hd2, hn.trans hn2, hr.trans hr2, hb.trans hb2⟩
      · simp only [run_loop, hseq, if_true]
        rw [show (get_time_now w st).2.NUMRECS = st.NUMRECS from rfl] at hrun
        rw [hrun]
        exact hloop
      · rw [hlog, hlog2]
        simp [List.append_assoc, get_time_now]
      · intro h; rw [hseq] at h; exact absurd h (by decide)
      · intro h; exact absurd hseq h
    · by_cases hrnd : name = "writerandom".toList
      · obtain ⟨segs, st1, hloop, hlog, hall, hd, hn, hr, hb⟩ := ih (do_write_random st) hrecs
        refine ⟨[Event.stdout "do_write_random\n".toList] :: segs, st1, ?_, ?_,
          List.Forall₂.cons ⟨fun h => absurd h hseq, fun _ => rfl, fun _ h => absurd hrnd h⟩ hall,
          hd, hn, hr, hb⟩
        · simp only [run_loop, hseq, hrnd, if_true, if_false]
          exact hloop
        · rw [hlog]
          simp [do_write_random, emit]
      · obtain ⟨segs, st1, hloop, hlog, hall, hd, hn, hr, hb⟩ :=
          ih (emit (Event.stderr (unknown_line name)) st) hrecs
        refine ⟨[Event.stderr (unknown_line name)] :: segs, st1, ?_, ?_,
          List.Forall₂.cons ⟨fun h => absurd h hseq, fun h => absurd h hrnd, fun _ _ => rfl⟩ hall,
          hd, hn, hr, hb⟩
        · simp only [run_loop, hseq, hrnd, if_false]
          exact hloop
        · rw [hlog]
          simp [emit]

/-! ## The benchmark runner: what leaves `recursive_rm` and the globals alone -/


theorem rm_count_append (a b : List Event) : rm_count (a ++ b) = rm_count a + rm_count b := by
  simp [rm_count, List.filter_append]

theorem Extends.trans {a b c : State} (h1 : Extends a b) (h2 : Extends b c) : Extends a c := by
  obtain ⟨hd1, hn1, e1, hl1, hr1⟩ := h1
  obtain ⟨hd2, hn2, e2, hl2, hr2⟩ := h2
  refine ⟨hd2.trans hd1, hn2.trans hn1, e1 ++ e2, ?_, ?_⟩
  · rw [hl2, hl1, List.append_assoc]
  · rw [rm_count_append, hr1, hr2]

theorem Extends.emit (e : Event) (st : State) (h : rm_count [e] = 0) : Extends st (emit e st) :=
  ⟨rfl, rfl, [e], rfl, h⟩

theorem Extends.rm_count {st st1 : State} (h : Extends st st1) :
    Zeroskip.rm_count st1.log = Zeroskip.rm_count st.log := by
  obtain ⟨_, _, e, hl, hr⟩ := h
  rw [hl, rm_count_append, hr, Nat.add_zero]

theorem usage_log (progname : List Char) (st : State) :
    rm_count (usage progname st).log = rm_count st.log ∧ (usage progname st).new_db = st.new_db := by
  refine ⟨?_, rfl⟩
  simp only [usage, emit_all, rm_count_append]
  have : rm_count ((usage_text progname).map Event.stdout) = 0 := by
    simp [rm_count, List.filter_eq_nil_iff]
  rw [this, Nat.add_zero]

theorem parse_options_frame (w : World) (argv0 : Option (List Char))
    (opts : List (Char × Option (List Char))) :
    ∀ st : State,
      rm_count (parse_options w argv0 opts st).state.log = rm_count st.log
      ∧ (parse_options w argv0 opts st).state.new_db = st.new_db
      ∧ (∀ r st1, parse_options w argv0 opts st = Res.ret r st1 →
          r = 0 ∧ st1.log = st.log ∧ st1.nclock = st.nclock) := by
  induction opts with
  | nil =>
    intro st
    refine ⟨rfl, rfl, ?_⟩
    intro r st1 h
    simp only [parse_options] at h
    injection h with h1 h2
    subst h1 h2
    exact ⟨rfl, rfl, rfl⟩
  | cons o opts ih =>
    intro st
    obtain ⟨option, optarg⟩ := o
    simp only [parse_options]
    split
    · exact ih _
    · split
      · exact ih _
      · split
        · split
          · exact ih _
          · exact ⟨rfl, rfl, fun r st1 h => by cases h⟩
        · split
          · exact ⟨(usage_log _ st).1, (usage_log _ st).2, fun r st1 h => by cases h⟩
          · exact ih _

/-! ## The benchmark runner: `main` -/


theorem main_no_list (w : World) (argc : Int) (argv0 : Option (List Char))
    (opts : List (Char × Option (List Char))) (hargc : argc ≠ 0) (r : Int) (st1 : State)
    (hp : parse_options w argv0 opts State.start = Res.ret r st1) (hb : st1.BENCHMARKS = none) :
    main w argc argv0 opts
      = Res.exit EXIT_FAILURE
          (usage (w.basename argv0)
            (emit (Event.stderr "No benchmarks specified.\n".toList) st1)) := by
  simp only [main, hargc, if_false, hp, hb]

/-- Claim C5, amended. When every store operation succeeds (no assertion of
`do_write_seq` fails) and `NUMRECS` is in `int` range, `run_benchmarks`
returns 0 and, after the header, extends the trace by one segment for each name
of the split list, in list order: for `writeseq` the trace of one run of the
workload followed by one report line, for `writerandom` the line of
`do_write_random` and no report line, for any other name the diagnostic
`Unknown benchmark '<name>'`. Whatever the store does, an unknown name only adds
its diagnostic and the loop goes on with the names after it. -/
theorem run_benchmarks_dispatch (w : World) (st : State) (hok : ∀ h, w.store h = ZS_OK)
    (hrecs : st.NUMRECS < 2 ^ 31) :
    (∃ (segs : List (List Event)) (st1 : State),
      run_benchmarks w st = Res.ret 0 st1
      ∧ st1.log = (print_header w st).log ++ segs.flatten
      ∧ List.Forall₂ (dispatched w.rand st.DBNAME st.new_db st.NUMRECS)
          (w.strsplit st.BENCHMARKS) segs)
    ∧ (∀ (w1 : World) (name : List Char) (rest : List (List Char)) (st2 : State),
        name ≠ "writeseq".toList → name ≠ "writerandom".toList →
        run_loop w1 (name :: rest) st2
          = run_loop w1 rest (emit (Event.stderr (unknown_line name)) st2)) := by
  constructor
  · obtain ⟨segs, st1, hloop, hlog, hall, _⟩ :=
      run_loop_ok w hok (w.strsplit (print_header w st).BENCHMARKS) (print_header w st) hrecs
    refine ⟨segs, st1, ?_, hlog, hall⟩
    simp only [run_benchmarks, hloop]
  · intro w1 name rest st2 h1 h2
    simp only [run_loop, h1, h2, if_false]

/-- Witness of `run_benchmarks_dispatch`: the list `bogus,writeseq` on a store
whose operations succeed. -/
theorem run_benchmarks_dispatch_witness :
    ∃ (segs : List (List Event)) (st1 : State),
      run_benchmarks (sample_world 0)
          { State.start with BENCHMARKS := some "bogus,writeseq".toList,
                             DBNAME := some "/tmp/db".toList } = Res.ret 0 st1
      ∧ st1.log = (print_header (sample_world 0)
          { State.start with BENCHMARKS := some "bogus,writeseq".toList,
                             DBNAME := some "/tmp/db".toList }).log ++ segs.flatten
      ∧ List.Forall₂ (dispatched (sample_world 0).rand (some "/tmp/db".toList) 0 1000)
          [ "bogus".toList, "writeseq".toList ] segs :=
  (run_benchmarks_dispatch (sample_world 0)
    { State.start with BENCHMARKS := some "bogus,writeseq".toList,
                       DBNAME := some "/tmp/db".toList } (fun _ => rfl) (by decide)).1

/-- Counterexample to claim C5 as stated: on the list `writeseq,bogus` with a
store whose `zsdb_init` fails, the assertion of `do_write_seq` ends the run;
`run_benchmarks` does not return and the name `bogus` is never reached (its
diagnostic is not in the trace). -/
theorem run_benchmarks_store_failure :
    (sample_world 1).strsplit (some "writeseq,bogus".toList)
        = ["writeseq".toList, "bogus".toList]
    ∧ Res.aborted (run_benchmarks (sample_world 1)
        { State.start with BENCHMARKS := some "writeseq,bogus".toList,
                           DBNAME := some "/tmp/db".toList }) = true
    ∧ Event.stderr (unknown_line "bogus".toList) ∉
        (run_benchmarks (sample_world 1)
          { State.start with BENCHMARKS := some "writeseq,bogus".toList,
                             DBNAME := some "/tmp/db".toList }).state.log := by
  decide

/-- Claim C9, the behaviour of the code. With the help flag as first option
`parse_options` prints the usage and calls `exit(option == 'h')`, that is
`exit(1)`, not `exit(0)`; an unrecognised option (`'?'`) exits with status 0.
When `parse_options` returns and no benchmark list was given, `main` prints
`No benchmarks specified.` and the usage, and exits with `EXIT_FAILURE`; the
trace holds nothing else (no workspace is provisioned, no workload runs). -/
theorem main_help_exit_status (w : World) (argc : Int) (argv0 optarg : Option (List Char))
    (rest : List (Char × Option (List Char))) (hargc : argc ≠ 0) :
    main w argc argv0 (('h', optarg) :: rest)
      = Res.exit 1 (usage (w.basename argv0) State.start)
    ∧ (1 : Int) ≠ EXIT_SUCCESS
    ∧ main w argc argv0 (('?', optarg) :: rest)
      = Res.exit 0 (usage (w.basename argv0) State.start)
    ∧ (∀ opts r st1, parse_options w argv0 opts State.start = Res.ret r st1 →
        st1.BENCHMARKS = none →
        main w argc argv0 opts
          = Res.exit EXIT_FAILURE
              (usage (w.basename argv0)
                (emit (Event.stderr "No benchmarks specified.\n".toList) st1))
        ∧ EXIT_FAILURE ≠ 0
        ∧ (usage (w.basename argv0)
            (emit (Event.stderr "No benchmarks specified.\n".toList) st1)).log
          = Event.stderr "No benchmarks specified.\n".toList
              :: (usage_text (w.basename argv0)).map Event.stdout
        ∧ (usage (w.basename argv0)
            (emit (Event.stderr "No benchmarks specified.\n".toList) st1)).new_db = 0) := by
  refine ⟨?_, by decide, ?_, ?_⟩
  · simp [main, hargc, parse_options]
  · simp [main, hargc, parse_options]
  · intro opts r st1 hp hb
    obtain ⟨_, hnew, hret⟩ := parse_options_frame w argv0 opts State.start
    rw [hp] at hnew
    obtain ⟨_, hlog, _⟩ := hret r st1 hp
    refine ⟨main_no_list w argc argv0 opts hargc r st1 hp hb, by decide, ?_, hnew⟩
    simp only [usage, emit_all, emit, hlog]
    rfl

/-- Witness of `main_help_exit_status`: the command line `zsbench -h`. -/
theorem main_help_exit_status_witness :
    (main (sample_world 0) 2 (some "zsbench".toList) [('h', none)]).status = some 1 :=
  congrArg Res.status
    (main_help_exit_status (sample_world 0) 2 (some "zsbench".toList) none [] (by decide)).1

end Zeroskip
